import Mathlib

/-!
Shallow embedding of the route-matching core of the `baremetal` repository
(`src/framework/router.ts` and `src/framework/render.ts`).

Conventions of the embedding:
* JavaScript objects used as string-keyed records (`params`, the route cache,
  `Map` children) are modelled as association lists with JavaScript `Map` /
  object semantics: `set` updates the first occurrence in place or appends,
  `delete` removes the entry, iteration follows insertion order.
* Handlers are opaque in the source (arbitrary functions); they are modelled
  by `Nat` identifiers, since the claims only ever compare their identity.
* Middleware bodies are arbitrary async functions in the source; they are
  modelled as straight-line programs (`List Step`): a finite sequence of
  observable effects and `next()` invocations, without internal try/catch.
* `Date.now()`-based TTL expiry is not modelled: all cache reads are taken
  to happen inside the TTL window (the claims are about aliasing and about
  hit/miss behaviour, not about expiry).
-/

namespace Baremetal

/-- JavaScript-object lookup on an association list (first occurrence). -/
def alistGet {κ α : Type} [DecidableEq κ] : List (κ × α) → κ → Option α
  | [], _ => none
  | (k, v) :: t, key => if k = key then some v else alistGet t key

/-- JavaScript-object assignment: update the first occurrence in place,
otherwise append at the end (insertion order preserved, like a JS `Map`). -/
def alistSet {κ α : Type} [DecidableEq κ] : List (κ × α) → κ → α → List (κ × α)
  | [], key, v => [(key, v)]
  | (k, w) :: t, key, v => if k = key then (k, v) :: t else (k, w) :: alistSet t key v

/-- JavaScript `delete obj[key]`: remove the (first) occurrence of the key. -/
def alistDel {κ α : Type} [DecidableEq κ] : List (κ × α) → κ → List (κ × α)
  | [], _ => []
  | (k, w) :: t, key => if k = key then t else (k, w) :: alistDel t key

/-- The params mapping mutated during matching (`Record<string, string>`). -/
abbrev Params := List (String × String)

/-- `RouteNodeType` from `types.ts`: `'static' | 'dynamic' | 'catch_all'`. -/
inductive RouteNodeType where
  | static
  | dynamic
  | catchAll
  deriving DecidableEq, Repr

/-- One observable action of a middleware body: an effect with an id, or a
call of the `next()` continuation. -/
inductive Step where
  | eff (id : Nat)
  | next
  deriving DecidableEq, Repr

/-- A middleware, modelled as the straight-line sequence of its actions. -/
abbrev MW := List Step

/-- The non-recursive fields of `RouteNode` (from `types.ts`). -/
structure NodeData where
  segment : String
  kind : RouteNodeType
  paramName : Option String
  middleware : List MW
  isLayout : Bool
  isGroup : Bool
  routeHandler : Option Nat
  layoutHandler : Option Nat
  priority : Int
  deriving DecidableEq, Repr

/-- `RouteNode`: node data plus the `children` map (insertion-ordered,
keyed by the literal segment string, as in `UltraRouter`). The `parent`
back-reference of the source is not represented; it is only used for layout
collection, which no claim below depends on. -/
inductive RNode where
  | mk (data : NodeData) (children : List (String × RNode))

/-- The node data of a route node. -/
def RNode.data : RNode → NodeData
  | .mk d _ => d

/-- The children map of a route node. -/
def RNode.children : RNode → List (String × RNode)
  | .mk _ cs => cs

/-- `createNode` from `router.ts`: fresh node data for a segment. -/
def createNodeData (segment : String) (kind : RouteNodeType)
    (paramName : Option String) : NodeData :=
  { segment := segment, kind := kind, paramName := paramName,
    middleware := [], isLayout := false, isGroup := false,
    routeHandler := none, layoutHandler := none, priority := 0 }

/-- The router's root node (`createNode("")` in the constructor). -/
def emptyRoot : RNode :=
  .mk (createNodeData "" .static none) []

/-- `node.priority = Math.max(node.priority, priority)` from `addRoute`. -/
def bumpPriority (n : RNode) (p : Int) : RNode :=
  match n with
  | .mk d cs => .mk { d with priority := max d.priority p } cs

/-- Stable insertion (descending by `priority`) used to model the stable
JavaScript `sort((a, b) => b[1].priority - a[1].priority)` over children.
Any stable sort by the same key produces the same output as the source's. -/
def stableInsertDesc (x : String × RNode) : List (String × RNode) → List (String × RNode)
  | [] => [x]
  | y :: t =>
    if y.2.data.priority ≤ x.2.data.priority then x :: y :: t
    else y :: stableInsertDesc x t

/-- Stable sort of a children list by descending priority (insertion sort). -/
def sortChildren : List (String × RNode) → List (String × RNode)
  | [] => []
  | x :: t => stableInsertDesc x (sortChildren t)

/-- A parsed route segment as produced by `UltraRouter.parseSegments`:
the raw segment text, its kind, and the captured parameter name. -/
structure PSeg where
  segment : String
  kind : RouteNodeType
  paramName : Option String
  deriving DecidableEq, Repr

/-- Registration errors thrown by `addRoute` / `parseSegments`
(`throw new Error(...)` sites in `router.ts`, identified by message). -/
inductive RegErr where
  | duplicateRoute
  | duplicateLayout
  | emptyCatchAllName
  | emptyDynamicName
  deriving DecidableEq, Repr

/-- Options object of `addRoute`. -/
structure AddOpts where
  isLayout : Bool
  isGroup : Bool
  middleware : List MW
  priority : Option Int
  deriving DecidableEq, Repr

/-- The default (empty) options object. -/
def defOpts : AddOpts :=
  { isLayout := false, isGroup := false, middleware := [], priority := none }

/-- Options registering a layout handler. -/
def layoutOpts : AddOpts :=
  { isLayout := true, isGroup := false, middleware := [], priority := none }

/-- The terminal-node update of `addRoute`: set the route or layout handler
(throwing on an occupied slot), overwrite `isGroup` / `isLayout`, and append
the supplied middleware. -/
def setHandlers (n : RNode) (h : Nat) (opts : AddOpts) : Except RegErr RNode :=
  match n with
  | .mk d cs =>
    if opts.isLayout then
      if d.layoutHandler.isSome then .error .duplicateLayout
      else .ok (.mk { d with layoutHandler := some h, isGroup := opts.isGroup,
                             isLayout := opts.isLayout,
                             middleware := d.middleware ++ opts.middleware } cs)
    else
      if d.routeHandler.isSome then .error .duplicateRoute
      else .ok (.mk { d with routeHandler := some h, isGroup := opts.isGroup,
                             isLayout := opts.isLayout,
                             middleware := d.middleware ++ opts.middleware } cs)

/-- The tree-descent loop of `addRoute` over parsed segments: look the child
up by its raw segment key; if absent, create it, append it to the children
map and re-sort by priority (the new child still carrying priority 0, as in
the source, where the sort happens before `node.priority` is raised); then
raise the child's priority and recurse. -/
def insertSegs : List PSeg → RNode → Int → Nat → AddOpts → Except RegErr RNode
  | [], n, _, h, opts => setHandlers n h opts
  | seg :: rest, .mk d cs, p, h, opts =>
    match alistGet cs seg.segment with
    | some c =>
      (insertSegs rest (bumpPriority c p) p h opts).map
        (fun c2 => .mk d (alistSet cs seg.segment c2))
    | none =>
      let c0 : RNode := .mk (createNodeData seg.segment seg.kind seg.paramName) []
      let cs1 := cs ++ [(seg.segment, c0)]
      let cs2 := if cs1.length > 1 then sortChildren cs1 else cs1
      (insertSegs rest (bumpPriority c0 p) p h opts).map
        (fun c2 => .mk d (alistSet cs2 seg.segment c2))

/-- `String.prototype.split('/')` on the character list of a path: splits at
every `'/'`, keeping empty chunks (so `""` splits to `[""]`). -/
def jsSplit : List Char → List (List Char)
  | [] => [[]]
  | c :: rest =>
    if c = '/' then [] :: jsSplit rest
    else
      match jsSplit rest with
      | [] => [[c]]
      | h :: t => (c :: h) :: t

/-- `path.split("/").filter(Boolean)`: split at `'/'` and drop the empty
segments, as done identically by `parseSegments` and by `match`. -/
def splitPath (s : String) : List String :=
  ((jsSplit s.data).filter (fun ch => ch ≠ [])).map (fun ch => String.mk ch)

/-- `segment.startsWith(c)` for a single-character prefix. -/
def headIs (s : String) (c : Char) : Bool :=
  match s.data with
  | [] => false
  | c' :: _ => c' = c

/-- `segment.endsWith(c)` for a single-character suffix. -/
def lastIs (s : String) (c : Char) : Bool :=
  match s.data.getLast? with
  | none => false
  | some c' => c' = c

/-- `segment.slice(1)`: the segment without its first character. -/
def dropHead (s : String) : String :=
  match s.data with
  | [] => ""
  | _ :: t => String.mk t

/-- Parse one raw segment, as in `UltraRouter.parseSegments`: a parenthesised
segment is a route group and is returned as a static literal (this is exactly
what the source's group branch does); `*name` is catch-all; `:name` is
dynamic; empty capture names throw; anything else is static. -/
def parseSeg (s : String) : Except RegErr PSeg :=
  if headIs s '(' ∧ lastIs s ')' then .ok ⟨s, .static, none⟩
  else if headIs s '*' then
    let pn := dropHead s
    if pn = "" then .error .emptyCatchAllName else .ok ⟨s, .catchAll, some pn⟩
  else if headIs s ':' then
    let pn := dropHead s
    if pn = "" then .error .emptyDynamicName else .ok ⟨s, .dynamic, some pn⟩
  else .ok ⟨s, .static, none⟩

/-- `UltraRouter.parseSegments`. -/
def parseSegments (path : String) : Except RegErr (List PSeg) :=
  (splitPath path).mapM parseSeg

/-- `UltraRouter.addRoute` (on the pure route tree; the source additionally
clears the match cache, which the stateful model below accounts for by
being used only on a fixed tree). -/
def addRoute (t : RNode) (path : String) (h : Nat) (opts : AddOpts) :
    Except RegErr RNode :=
  (parseSegments path).bind (fun segs => insertSegs segs t (opts.priority.getD 0) h opts)

/-- Result type of one `matchNode` call: the returned value (matched node and
the params object's value at return time) together with the value of the
shared, mutated `params` object after the call. -/
abbrev MRes := Option (RNode × Params) × Params

/-- The first loop of `matchNode`: try static children whose literal segment
equals the current request segment, in map order, returning the first
success and threading the shared params object through failed subtrees. -/
def tryStaticList (step : RNode → Params → MRes) (s : String) :
    List (String × RNode) → Params → MRes
  | [], ps => (none, ps)
  | (_, c) :: t, ps =>
    if c.data.kind = .static ∧ c.data.segment = s then
      match step c ps with
      | (some r, ps') => (some r, ps')
      | (none, ps') => tryStaticList step s t ps'
    else tryStaticList step s t ps

/-- The second loop of `matchNode`: try dynamic children (with a truthy
`paramName`), binding the param to the current segment, recursing, and on
failure restoring the binding to its previous value — deleting the key if it
was previously absent — before moving to the next child. -/
def tryDynamicList (step : RNode → Params → MRes) (s : String) :
    List (String × RNode) → Params → MRes
  | [], ps => (none, ps)
  | (_, c) :: t, ps =>
    match c.data.kind, c.data.paramName with
    | .dynamic, some pn =>
      if pn = "" then tryDynamicList step s t ps
      else
        match alistGet ps pn with
        | none =>
          match step c (alistSet ps pn s) with
          | (some r, ps') => (some r, ps')
          | (none, ps') => tryDynamicList step s t (alistDel ps' pn)
        | some o =>
          match step c (alistSet ps pn s) with
          | (some r, ps') => (some r, ps')
          | (none, ps') => tryDynamicList step s t (alistSet ps' pn o)
    | _, _ => tryDynamicList step s t ps

/-- The third loop of `matchNode`: the first catch-all child (with a truthy
`paramName`) matches unconditionally, binding the param to the remaining
segments joined by `"/"`; note the source performs no `routeHandler` check
here. -/
def tryCatchAllList (remaining : List String) :
    List (String × RNode) → Params → MRes
  | [], ps => (none, ps)
  | (_, c) :: t, ps =>
    match c.data.kind, c.data.paramName with
    | .catchAll, some pn =>
      if pn = "" then tryCatchAllList remaining t ps
      else
        let ps1 := alistSet ps pn (String.intercalate "/" remaining)
        (some (c, ps1), ps1)
    | _, _ => tryCatchAllList remaining t ps

/-- `UltraRouter.matchNode`: depth-first matching with per-level precedence
static, then dynamic, then catch-all; at the end of the path the node
matches only if it has a `routeHandler`. -/
def matchNode : List String → RNode → Params → MRes
  | [], n, ps =>
    if n.data.routeHandler.isSome then (some (n, ps), ps) else (none, ps)
  | s :: rest, n, ps =>
    match tryStaticList (fun c ps' => matchNode rest c ps') s n.children ps with
    | (some r, ps1) => (some r, ps1)
    | (none, ps1) =>
      match tryDynamicList (fun c ps' => matchNode rest c ps') s n.children ps1 with
      | (some r, ps2) => (some r, ps2)
      | (none, ps2) => tryCatchAllList (s :: rest) n.children ps2
termination_by structural segs _ _ => segs

/-- The pure core of `UltraRouter.match` (the cache-miss path): split the
pathname, match from the root with an empty params object, and return the
matched node with the final params value. -/
def matchPath (t : RNode) (pathname : String) : Option (RNode × Params) :=
  (matchNode (splitPath pathname) t []).1

/-- Errors raised while running a middleware chain. -/
inductive MWErr where
  | doubleNext
  deriving DecidableEq, Repr

/-- Execute the actions of one middleware. `cont` is the outer `next()`
continuation (running the middleware after this one); `called` is the
per-middleware `isNextCalled` flag: a second call of the inner `next()`
throws, and the error propagates out through the chain. The effect log is
threaded append-only. -/
def runSteps (cont : List Nat → List Nat × Option MWErr) :
    List Step → Bool → List Nat → List Nat × Option MWErr
  | [], _, log => (log, none)
  | .eff e :: s, called, log => runSteps cont s called (log ++ [e])
  | .next :: s, called, log =>
    if called then (log, some .doubleNext)
    else
      match cont log with
      | (log', none) => runSteps cont s true log'
      | (log', some er) => (log', some er)

/-- `UltraRouter.runMiddleware`: the chained-continuation runner. An empty
chain returns immediately; otherwise each middleware runs with a fresh
`isNextCalled` flag and `next()` advances to the remaining middleware. -/
def runChain : List MW → List Nat → List Nat × Option MWErr
  | [], log => (log, none)
  | m :: rest, log => runSteps (fun lg => runChain rest lg) m false log

/-- The sequence of `runMiddleware` calls made by `UltraRouter.render`:
one per layout node (outermost first), then one for the terminal node. -/
def runChains : List (List MW) → List Nat → List Nat × Option MWErr
  | [], log => (log, none)
  | c :: rest, log =>
    match runChain c log with
    | (log', none) => runChains rest log'
    | (log', some er) => (log', some er)

/-- Observable outcome of `UltraRouter.render` for a matched route: the
middleware effect log, the response status, and whether the route handler
was invoked (i.e. whether `renderRSC` was reached). -/
structure RenderOutcome where
  log : List Nat
  status : Nat
  handlerRan : Bool
  deriving DecidableEq, Repr

/-- `UltraRouter.render` after a successful match (with the route handler
present): run every layout's middleware then the node's middleware inside a
try/catch; a thrown error yields the plain 500 response and the handler is
never invoked; otherwise `renderRSC` runs the handler. -/
def renderExec (layoutChains : List (List MW)) (nodeChain : List MW) :
    RenderOutcome :=
  match runChains (layoutChains ++ [nodeChain]) [] with
  | (log, none) => { log := log, status := 200, handlerRan := true }
  | (log, some _) => { log := log, status := 500, handlerRan := false }

/-- The effect ids a middleware body would emit if run to completion. -/
def effs : List Step → List Nat
  | [] => []
  | .eff e :: s => e :: effs s
  | .next :: s => effs s

/-- `true` iff a middleware body never calls `next()`. -/
def noNext : List Step → Bool
  | [] => true
  | .eff _ :: s => noNext s
  | .next :: _ => false

/-!
Stateful model of `UltraRouter.match` for the aliasing claim: the heap
assigns reference identities to the params objects handed out to callers,
and the route cache stores, per pathname, either a cached null or the cached
`MatchedRoute` holding a *reference* to its params object (returning a
cached entry returns the same object). TTL expiry is not modelled; every
cached entry is taken to be within its TTL window. -/
structure RouterSt where
  heap : List (Nat × Params)
  nextRef : Nat
  cache : List (String × Option (RNode × Nat))

/-- The router's initial state: empty heap and empty route cache. -/
def initSt : RouterSt :=
  { heap := [], nextRef := 0, cache := [] }

/-- Dereference a params object. -/
def heapGet (st : RouterSt) (r : Nat) : Option Params :=
  alistGet st.heap r

/-- `UltraRouter.match` with the route cache: a hit returns the cached data
object itself; a miss runs `matchNode`, clones the working params into a
fresh object (`{ ...params }`), caches the result (or the explicit null) and
returns it. -/
def matchS (t : RNode) (st : RouterSt) (p : String) :
    Option (RNode × Nat) × RouterSt :=
  match alistGet st.cache p with
  | some entry => (entry, st)
  | none =>
    match matchPath t p with
    | none => (none, { st with cache := alistSet st.cache p none })
    | some (n, ps) =>
      let r := st.nextRef
      (some (n, r),
       { heap := st.heap ++ [(r, ps)], nextRef := r + 1,
         cache := alistSet st.cache p (some (n, r)) })

/-- A caller mutating a returned result's params object
(`result.params[k] = v`). -/
def mutateResultParam (st : RouterSt) (r : Nat) (k v : String) : RouterSt :=
  { st with heap := st.heap.map (fun e => if e.1 = r then (e.1, alistSet e.2 k v) else e) }

/-!  Render-pipeline error model (`render.ts`). -/

/-- The per-character replacement of `escapeHtml`'s regex callback. -/
def escChar (c : Char) : List Char :=
  if c = '&' then ['&', 'a', 'm', 'p', ';']
  else if c = '<' then ['&', 'l', 't', ';']
  else if c = '>' then ['&', 'g', 't', ';']
  else if c = Char.ofNat 34 then ['&', 'q', 'u', 'o', 't', ';']
  else if c = Char.ofNat 39 then ['&', '#', '3', '9', ';']
  else [c]

/-- `escapeHtml` from `render.ts`: `str.replace(/[&<>"']/g, ...)`, which
replaces every occurrence of one of the five characters independently. -/
def escapeHtml (s : String) : String :=
  String.mk ((s.data.map escChar).flatten)

/-- Whether a character sequence starts with the tail of one of the five
HTML entities emitted by `escapeHtml` (everything after the `&`). -/
def isEntityTail : List Char → Bool
  | 'a' :: 'm' :: 'p' :: ';' :: _ => true
  | 'l' :: 't' :: ';' :: _ => true
  | 'g' :: 't' :: ';' :: _ => true
  | 'q' :: 'u' :: 'o' :: 't' :: ';' :: _ => true
  | '#' :: '3' :: '9' :: ';' :: _ => true
  | _ => false

/-- No raw occurrence of `<`, `>`, `"` or `'`. -/
def noRawSpecials (l : List Char) : Bool :=
  l.all (fun c => decide (c ≠ '<' ∧ c ≠ '>' ∧ c ≠ Char.ofNat 34 ∧ c ≠ Char.ofNat 39))

/-- Every occurrence of `&` is immediately followed by an entity tail. -/
def ampEscaped : List Char → Bool
  | [] => true
  | '&' :: rest => isEntityTail rest && ampEscaped rest
  | _ :: rest => ampEscaped rest

/-- A character list is safely embeddable in HTML text: it contains no raw
`<`, `>`, `"` or `'`, and every `&` starts one of the five entities emitted
by `escapeHtml`. -/
def wellEscaped (l : List Char) : Bool :=
  noRawSpecials l && ampEscaped l

/-- A rendered HTTP response: status code and HTML body. -/
structure Resp where
  status : Nat
  body : String
  deriving DecidableEq, Repr

/-- The 500 error page built in `renderRSC`'s catch block: the error message
is HTML-escaped and embedded in a fixed scaffold. -/
def error500 (msg : String) : Resp :=
  { status := 500,
    body := "<!DOCTYPE html><html><body><h1>Server Error</h1><pre>"
            ++ escapeHtml msg
            ++ "</pre></body></html>" }

/-- `renderRSC` with the handler call and the rendering engine abstracted as
fallible computations: a render-cache hit returns the cached response;
otherwise any error thrown while running the handler or rendering its
element is caught and converted to the escaped 500 page; on success the
rendered body is wrapped in the document shell. -/
def renderRSC (cached : Option Resp) (handlerRes : Except String Nat)
    (renderBody : Nat → Except String String) : Resp :=
  match cached with
  | some r => r
  | none =>
    match handlerRes with
    | .error e => error500 e
    | .ok el =>
      match renderBody el with
      | .error e => error500 e
      | .ok b => { status := 200, body := b }

/-!  Definitions supporting the individual claims. -/

/-- The raw-segment keys of a parsed path (`seg.segment` is the children-map
key used by `addRoute`). -/
def segKeys (segs : List PSeg) : List String :=
  segs.map (fun seg => seg.segment)

/-- Walk the tree along literal child keys. -/
def findNode : RNode → List String → Option RNode
  | n, [] => some n
  | n, k :: rest =>
    match alistGet n.children k with
    | some c => findNode c rest
    | none => none

/-- Whether the handler slot of the given role is already occupied at the
node reached by the given keys (false if no such node exists yet). -/
def slotTaken (t : RNode) (keys : List String) (forLayout : Bool) : Bool :=
  match findNode t keys with
  | none => false
  | some n => if forLayout then n.data.layoutHandler.isSome else n.data.routeHandler.isSome

/-- The duplicate-handler error corresponding to a registration role. -/
def dupOf (forLayout : Bool) : RegErr :=
  if forLayout then .duplicateLayout else .duplicateRoute

/-- A parsed static segment (what `parseSegments` yields for a plain name). -/
def staticSeg (q : String) : PSeg := ⟨q, .static, none⟩

/-- A parsed dynamic segment for parameter `x` (what `:x` parses to). -/
def dynSeg (x : String) : PSeg := ⟨":" ++ x, .dynamic, some x⟩

/-- Registering, from an empty router, a static route `pre ++ [s]` with
handler `h1` and a dynamic route `pre ++ [:x]` with handler `h2`, in either
order (`staticFirst` decides which `addRoute` call happens first). -/
def buildTwo (staticFirst : Bool) (pre : List String) (s x : String)
    (h1 h2 : Nat) : Except RegErr RNode :=
  let p1 := pre.map staticSeg ++ [staticSeg s]
  let p2 := pre.map staticSeg ++ [dynSeg x]
  if staticFirst then
    (insertSegs p1 emptyRoot 0 h1 defOpts).bind
      (fun t => insertSegs p2 t 0 h2 defOpts)
  else
    (insertSegs p2 emptyRoot 0 h2 defOpts).bind
      (fun t => insertSegs p1 t 0 h1 defOpts)

/-- A chain of static tree levels for the segments of `pre`, ending in the
given bottom children map (the tree shape `addRoute` builds for a shared
static prefix). -/
def chainChildren : List String → List (String × RNode) → List (String × RNode)
  | [], bottom => bottom
  | q :: qs, bottom =>
    [(q, RNode.mk (createNodeData q .static none) (chainChildren qs bottom))]

/-- The terminal node created for a fresh segment with a route handler
registered through the default options. -/
def leafOf (seg : PSeg) (h : Nat) : RNode :=
  .mk { createNodeData seg.segment seg.kind seg.paramName with routeHandler := some h } []

/-- Concrete tree for the group claim: a layout registered at `/(main)` and
a page at `/(main)/home`. -/
def groupTree : RNode :=
  (((addRoute emptyRoot "/(main)" 1 layoutOpts).bind
      (fun t => addRoute t "/(main)/home" 2 defOpts)).toOption).getD emptyRoot

/-- Concrete tree for the catch-all claim: a layout (no route handler)
registered at `/files/*rest`. -/
def catchAllLayoutTree : RNode :=
  ((addRoute emptyRoot "/files/*rest" 7 layoutOpts).toOption).getD emptyRoot

/-- Concrete tree for the params-aliasing claim: the route `/users/:id`. -/
def usersTree : RNode :=
  ((addRoute emptyRoot "/users/:id" 1 defOpts).toOption).getD emptyRoot

/-!  ## Theorems -/

@[simp] theorem RNode.data_mk (d : NodeData) (cs : List (String × RNode)) :
    (RNode.mk d cs).data = d := rfl

@[simp] theorem RNode.children_mk (d : NodeData) (cs : List (String × RNode)) :
    (RNode.mk d cs).children = cs := rfl

@[simp] theorem createNodeData_segment (s : String) (k : RouteNodeType)
    (pn : Option String) : (createNodeData s k pn).segment = s := rfl

@[simp] theorem createNodeData_kind (s : String) (k : RouteNodeType)
    (pn : Option String) : (createNodeData s k pn).kind = k := rfl

@[simp] theorem createNodeData_paramName (s : String) (k : RouteNodeType)
    (pn : Option String) : (createNodeData s k pn).paramName = pn := rfl

@[simp] theorem createNodeData_middleware (s : String) (k : RouteNodeType)
    (pn : Option String) : (createNodeData s k pn).middleware = [] := rfl

@[simp] theorem createNodeData_isLayout (s : String) (k : RouteNodeType)
    (pn : Option String) : (createNodeData s k pn).isLayout = false := rfl

@[simp] theorem createNodeData_isGroup (s : String) (k : RouteNodeType)
    (pn : Option String) : (createNodeData s k pn).isGroup = false := rfl

@[simp] theorem createNodeData_routeHandler (s : String) (k : RouteNodeType)
    (pn : Option String) : (createNodeData s k pn).routeHandler = none := rfl

@[simp] theorem createNodeData_layoutHandler (s : String) (k : RouteNodeType)
    (pn : Option String) : (createNodeData s k pn).layoutHandler = none := rfl

@[simp] theorem createNodeData_priority (s : String) (k : RouteNodeType)
    (pn : Option String) : (createNodeData s k pn).priority = 0 := rfl

@[simp] theorem leafOf_children (seg : PSeg) (h : Nat) :
    (leafOf seg h).children = [] := rfl

@[simp] theorem leafOf_data_segment (seg : PSeg) (h : Nat) :
    (leafOf seg h).data.segment = seg.segment := rfl

@[simp] theorem leafOf_data_kind (seg : PSeg) (h : Nat) :
    (leafOf seg h).data.kind = seg.kind := rfl

@[simp] theorem leafOf_data_paramName (seg : PSeg) (h : Nat) :
    (leafOf seg h).data.paramName = seg.paramName := rfl

@[simp] theorem leafOf_data_routeHandler (seg : PSeg) (h : Nat) :
    (leafOf seg h).data.routeHandler = some h := rfl

@[simp] theorem leafOf_data_priority (seg : PSeg) (h : Nat) :
    (leafOf seg h).data.priority = 0 := rfl

theorem jsSplit_ne_nil (l : List Char) : jsSplit l ≠ [] := by
  induction l with
  | nil => simp [jsSplit]
  | cons c rest ih =>
    simp only [jsSplit]
    split
    · simp
    · cases h : jsSplit rest with
      | nil => simp
      | cons x t => simp

theorem jsSplit_append_slash (a b : List Char) :
    jsSplit (a ++ '/' :: b) = jsSplit a ++ jsSplit b := by
  induction a with
  | nil => simp [jsSplit]
  | cons c a ih =>
    by_cases hc : c = '/'
    · subst hc
      simp [jsSplit, ih]
    · cases h : jsSplit a with
      | nil => exact absurd h (jsSplit_ne_nil a)
      | cons x t => simp [jsSplit, hc, ih, h]

theorem splitPath_append_slash (a b : String) :
    splitPath (a ++ "/" ++ b) = splitPath a ++ splitPath b := by
  have hdata : (a ++ "/" ++ b).data = a.data ++ '/' :: b.data := by
    simp [String.data_append]
  simp [splitPath, hdata, jsSplit_append_slash, List.filter_append, List.map_append]

theorem splitPath_empty : splitPath "" = [] := rfl

/-- C10: the match result depends on the pathname only through its nonempty
segments: redundant `/` separators (leading, trailing, or doubled anywhere)
do not change the result of the pure match computation, because both sides
split on `/` and drop empty segments. -/
theorem claim10_slash_invariance (t : RNode) (a b : String) :
    matchPath t (a ++ "//" ++ b) = matchPath t (a ++ "/" ++ b)
    ∧ matchPath t ("/" ++ a) = matchPath t a
    ∧ matchPath t (a ++ "/") = matchPath t a := by
  have hsplit1 : splitPath (a ++ "//" ++ b) = splitPath (a ++ "/" ++ b) := by
    have h1 : (a ++ "//" ++ b) = (a ++ "/" ++ ("/" ++ b)) := by
      simp [String.ext_iff, String.data_append]
    rw [h1, splitPath_append_slash a ("/" ++ b)]
    have h2 : ("/" ++ b) = ("" ++ "/" ++ b) := by
      simp [String.ext_iff, String.data_append]
    rw [h2, splitPath_append_slash "" b, splitPath_empty,
        splitPath_append_slash a b]
    simp
  have hsplit2 : splitPath ("/" ++ a) = splitPath a := by
    have h2 : ("/" ++ a) = ("" ++ "/" ++ a) := by
      simp [String.ext_iff, String.data_append]
    rw [h2, splitPath_append_slash "" a, splitPath_empty]
    simp
  have hsplit3 : splitPath (a ++ "/") = splitPath a := by
    have h3 : (a ++ "/") = (a ++ "/" ++ "") := by
      simp [String.ext_iff, String.data_append]
    rw [h3, splitPath_append_slash a "", splitPath_empty]
    simp
  refine ⟨?_, ?_, ?_⟩
  · show (matchNode (splitPath (a ++ "//" ++ b)) t []).1 = _
    rw [hsplit1]; rfl
  · show (matchNode (splitPath ("/" ++ a)) t []).1 = _
    rw [hsplit2]; rfl
  · show (matchNode (splitPath (a ++ "/")) t []).1 = _
    rw [hsplit3]; rfl

/-- C2: contrary to the claim, a parenthesised group segment is *not*
zero-width in the code: `parseSegments` stores it as a literal static
segment and `matchNode` never skips group nodes, so with a layout at
`/(main)` and a page at `/(main)/home` the request `/home` does not match
at all, while the literal path `/(main)/home` does reach the page handler. -/
theorem claim2_group_literal_static :
    matchPath groupTree "/home" = none
    ∧ (matchPath groupTree "/(main)/home").map
        (fun r => (r.1.data.routeHandler, r.2)) = some (some 2, []) := by
  exact ⟨rfl, rfl⟩

theorem noRawSpecials_flatten (l : List Char) :
    noRawSpecials ((l.map escChar).flatten) = true := by
  induction l with
  | nil => rfl
  | cons c rest ih =>
    simp only [List.map_cons, List.flatten_cons, noRawSpecials, List.all_append,
      Bool.and_eq_true]
    refine ⟨?_, by simpa [noRawSpecials] using ih⟩
    by_cases h1 : c = '&'
    · subst h1; decide
    · by_cases h2 : c = '<'
      · subst h2; decide
      · by_cases h3 : c = '>'
        · subst h3; decide
        · by_cases h4 : c = Char.ofNat 34
          · subst h4; decide
          · by_cases h5 : c = Char.ofNat 39
            · subst h5; decide
            · simp [escChar, h1, h2, h3, h4, h5]

theorem ampEscaped_flatten (l : List Char) :
    ampEscaped ((l.map escChar).flatten) = true := by
  induction l with
  | nil => rfl
  | cons c rest ih =>
    simp only [List.map_cons, List.flatten_cons]
    by_cases h1 : c = '&'
    · subst h1; simpa [escChar, ampEscaped, isEntityTail] using ih
    · by_cases h2 : c = '<'
      · subst h2; simpa [escChar, ampEscaped, isEntityTail] using ih
      · by_cases h3 : c = '>'
        · subst h3; simpa [escChar, ampEscaped, isEntityTail] using ih
        · by_cases h4 : c = Char.ofNat 34
          · subst h4; simpa [escChar, ampEscaped, isEntityTail] using ih
          · by_cases h5 : c = Char.ofNat 39
            · subst h5; simpa [escChar, ampEscaped, isEntityTail] using ih
            · simp only [escChar, h1, h2, h3, h4, h5, if_false, List.cons_append,
                List.nil_append, if_neg]
              rw [ampEscaped]
              · exact ih
              · exact h1

theorem wellEscaped_flatten (l : List Char) :
    wellEscaped ((l.map escChar).flatten) = true := by
  simp [wellEscaped, noRawSpecials_flatten, ampEscaped_flatten]

/-- C9: every error from the handler call or the rendering step (when not
served from the render cache) is converted by `renderRSC` into the 500
error page, whose body embeds the message only through `escapeHtml`, and
the escaped message is well-escaped: it contains no raw `<`, `>`, `"` or
`'`, and every `&` in it starts one of the five emitted HTML entities. -/
theorem claim9_error_escaped (msg : String) (hres : Except String Nat)
    (rbody : Nat → Except String String)
    (herr : hres = .error msg ∨ ∃ el, hres = .ok el ∧ rbody el = .error msg) :
    renderRSC none hres rbody = error500 msg
    ∧ (error500 msg).status = 500
    ∧ (error500 msg).body
        = "<!DOCTYPE html><html><body><h1>Server Error</h1><pre>"
          ++ escapeHtml msg ++ "</pre></body></html>"
    ∧ wellEscaped (escapeHtml msg).data = true := by
  refine ⟨?_, rfl, rfl, wellEscaped_flatten msg.data⟩
  rcases herr with h | ⟨el, h1, h2⟩
  · rw [h]; rfl
  · rw [h1]; simp [renderRSC, h2]

theorem claim9_witness :
    ((Except.error "<b> & \"q\"" : Except String Nat) = .error "<b> & \"q\""
        ∨ ∃ el, (Except.error "<b> & \"q\"" : Except String Nat) = .ok el
            ∧ (fun _ : Nat => (Except.ok "" : Except String String)) el = .error "<b> & \"q\"")
    ∧ renderRSC none (.error "<b> & \"q\"") (fun _ => .ok "") = error500 "<b> & \"q\""
    ∧ wellEscaped (escapeHtml "<b> & \"q\"").data = true := by
  have h := claim9_error_escaped "<b> & \"q\"" (.error "<b> & \"q\"")
    (fun _ => .ok "") (Or.inl rfl)
  exact ⟨Or.inl rfl, h.1, h.2.2.2⟩

theorem runSteps_append_log (cont : List Nat → List Nat × Option MWErr)
    (hcont : ∀ lg, cont lg = (lg ++ (cont []).1, (cont []).2)) :
    ∀ (s : List Step) (called : Bool) (log : List Nat),
      runSteps cont s called log
        = (log ++ (runSteps cont s called []).1, (runSteps cont s called []).2) := by
  intro s
  induction s with
  | nil => intro called log; simp [runSteps]
  | cons st s ih =>
    intro called log
    cases st with
    | eff e =>
      simp only [runSteps, List.nil_append]
      rw [ih called (log ++ [e]), ih called [e]]
      simp
    | next =>
      cases called with
      | true => simp only [runSteps]; simp
      | false =>
        simp only [runSteps, List.nil_append]
        rw [hcont log, hcont []]
        cases h2 : (cont []).2 with
        | some er => simp
        | none =>
          simp only [Bool.false_eq_true, if_false, List.nil_append]
          rw [ih true (log ++ (cont []).1), ih true (cont []).1]
          simp

theorem runChain_append_log (ms : List MW) :
    ∀ log : List Nat,
      runChain ms log = (log ++ (runChain ms []).1, (runChain ms []).2) := by
  induction ms with
  | nil => intro log; simp [runChain]
  | cons m rest ih =>
    intro log
    simp only [runChain]
    exact runSteps_append_log (fun lg => runChain rest lg) ih m false log

theorem runSteps_noNext_append (cont : List Nat → List Nat × Option MWErr)
    (a : List Step) (ha : noNext a = true) :
    ∀ (s : List Step) (called : Bool) (log : List Nat),
      runSteps cont (a ++ s) called log = runSteps cont s called (log ++ effs a) := by
  induction a with
  | nil => intro s called log; simp [effs]
  | cons st a ih =>
    intro s called log
    cases st with
    | eff e =>
      simp only [List.cons_append, runSteps, effs]
      rw [show (a.append s) = a ++ s from rfl]
      rw [ih (by simpa [noNext] using ha) s called (log ++ [e])]
      simp
    | next => simp [noNext] at ha

/-- C5 counterexample: with a layout middleware `[eff 1]` that never calls
`next()`, the node middleware `eff 2` still runs and the route handler is
still invoked (first conjunct); likewise, within a single chain, a
middleware that never calls `next()` skips the rest of that chain but the
handler is still invoked (second conjunct) — the request does not terminate
early as the claim states. -/
theorem claim5_counterexample :
    renderExec [[[Step.eff 1]]] [[Step.eff 2]]
      = { log := [1, 2], status := 200, handlerRan := true }
    ∧ renderExec [] [[Step.eff 1], [Step.eff 2]]
      = { log := [1], status := 200, handlerRan := true } :=
  ⟨rfl, rfl⟩

/-- C5 (amended): a middleware that returns without calling `next()` makes
the remaining middleware of its own `runMiddleware` chain silently not run
(the chain resolves with no error and only that middleware's effects), but
`render` then proceeds: the route handler is still invoked. -/
theorem claim5_amended (m : MW) (rest : List MW) (log : List Nat)
    (hm : noNext m = true) :
    runChain (m :: rest) log = (log ++ effs m, none)
    ∧ renderExec [] (m :: rest)
      = { log := effs m, status := 200, handlerRan := true } := by
  have hchain : ∀ lg, runChain (m :: rest) lg = (lg ++ effs m, none) := by
    intro lg
    have := runSteps_noNext_append (fun l => runChain rest l) m hm [] false lg
    simpa [runChain, runSteps] using this
  refine ⟨hchain log, ?_⟩
  simp [renderExec, runChains, hchain []]

theorem claim5_witness :
    noNext [Step.eff 3] = true
    ∧ runChain [[Step.eff 3], [Step.eff 4]] [] = ([3], none)
    ∧ renderExec [] [[Step.eff 3], [Step.eff 4]]
      = { log := [3], status := 200, handlerRan := true } := by
  have h := claim5_amended [Step.eff 3] [[Step.eff 4]] [] (by decide)
  exact ⟨by decide, h.1, h.2⟩

/-- C6: a middleware that calls `next()` twice (no `next` in `a` and `b`,
the two calls around `b`) over a downstream chain that itself completes
without error: the second call throws the double-next error, which
propagates and surfaces as the 500 response, the handler is not invoked,
and the downstream middleware effects appear exactly once in the log
(`(runChain rest []).1`, produced by the single first `next()` call). -/
theorem claim6_double_next_500 (a b c : List Step) (rest : List MW)
    (ha : noNext a = true) (hb : noNext b = true)
    (hrest : (runChain rest []).2 = none) :
    renderExec [] ((a ++ (Step.next :: (b ++ (Step.next :: c)))) :: rest)
      = { log := effs a ++ (runChain rest []).1 ++ effs b,
          status := 500, handlerRan := false } := by
  have hchain : runChain ((a ++ (Step.next :: (b ++ (Step.next :: c)))) :: rest) []
      = (effs a ++ (runChain rest []).1 ++ effs b, some .doubleNext) := by
    simp only [runChain]
    rw [runSteps_noNext_append (fun lg => runChain rest lg) a ha
      (Step.next :: (b ++ (Step.next :: c))) false []]
    simp only [runSteps, List.nil_append]
    rw [if_neg (by simp)]
    rw [runChain_append_log rest (effs a)]
    rw [hrest]
    simp only []
    rw [runSteps_noNext_append (fun lg => runChain rest lg) b hb
      (Step.next :: c) true (effs a ++ (runChain rest []).1)]
    simp [runSteps]
  simp [renderExec, runChains, hchain]

theorem claim6_witness :
    noNext [Step.eff 1] = true
    ∧ noNext ([] : List Step) = true
    ∧ (runChain [[Step.eff 2]] []).2 = none
    ∧ renderExec [] [[Step.eff 1, Step.next, Step.next, Step.eff 9], [Step.eff 2]]
      = { log := [1, 2], status := 500, handlerRan := false } := by
  have h := claim6_double_next_500 [Step.eff 1] [] [Step.eff 9] [[Step.eff 2]]
    (by decide) (by decide) (by decide)
  exact ⟨by decide, by decide, by decide, by simpa using h⟩

theorem alistGet_mem_of_some {κ α : Type} [DecidableEq κ] {l : List (κ × α)}
    {k : κ} {v : α} (h : alistGet l k = some v) : k ∈ l.map (fun e => e.1) := by
  induction l with
  | nil => simp [alistGet] at h
  | cons e t ih =>
    rw [alistGet] at h
    by_cases he : e.1 = k
    · simp [he]
    · rw [if_neg he] at h
      simp [ih h]

theorem alistSet_alistSet_restore {l : Params} {k o v : String}
    (h : alistGet l k = some o) : alistSet (alistSet l k v) k o = l := by
  induction l with
  | nil => simp [alistGet] at h
  | cons e t ih =>
    rw [alistGet] at h
    by_cases he : e.1 = k
    · cases e with
      | mk k1 v1 =>
        simp only at he
        subst he
        rw [if_pos rfl] at h
        cases h
        simp [alistSet]
    · rw [if_neg he] at h
      cases e with
      | mk k1 v1 =>
        simp only at he
        simp [alistSet, he, ih h]

theorem alistDel_alistSet_absent {l : Params} {k v : String}
    (h : alistGet l k = none) : alistDel (alistSet l k v) k = l := by
  induction l with
  | nil => simp [alistSet, alistDel]
  | cons e t ih =>
    rw [alistGet] at h
    by_cases he : e.1 = k
    · rw [if_pos he] at h
      cases h
    · rw [if_neg he] at h
      cases e with
      | mk k1 v1 =>
        simp only at he
        simp [alistSet, alistDel, he, ih h]

theorem tryStaticList_fail_preserves (step : RNode → Params → MRes)
    (hstep : ∀ c p, (step c p).1 = none → (step c p).2 = p) (s : String) :
    ∀ (cs : List (String × RNode)) (ps : Params),
      (tryStaticList step s cs ps).1 = none → (tryStaticList step s cs ps).2 = ps := by
  intro cs
  induction cs with
  | nil => intro ps _; rfl
  | cons e t ih =>
    intro ps
    cases e with
    | mk k c =>
      simp only [tryStaticList]
      split
      · cases hq : step c ps with
        | mk o ps' =>
          cases o with
          | some r => simp
          | none =>
            have hps' : ps' = ps := by
              have := hstep c ps
              rw [hq] at this
              exact this rfl
            rw [hps']
            simpa using ih ps
      · exact ih ps

theorem tryDynamicList_fail_preserves (step : RNode → Params → MRes)
    (hstep : ∀ c p, (step c p).1 = none → (step c p).2 = p) (s : String) :
    ∀ (cs : List (String × RNode)) (ps : Params),
      (tryDynamicList step s cs ps).1 = none → (tryDynamicList step s cs ps).2 = ps := by
  intro cs
  induction cs with
  | nil => intro ps _; rfl
  | cons e t ih =>
    intro ps
    cases e with
    | mk k c =>
      simp only [tryDynamicList]
      cases hk : c.data.kind <;> cases hp : c.data.paramName <;>
        first
        | exact ih ps
        | skip
      rename_i pn
      simp only
      by_cases hpn : pn = ""
      · rw [if_pos hpn]; exact ih ps
      · rw [if_neg hpn]
        cases horig : alistGet ps pn with
        | none =>
          cases hq : step c (alistSet ps pn s) with
          | mk o ps' =>
            cases o with
            | some r => simp
            | none =>
              have hps' : ps' = alistSet ps pn s := by
                have := hstep c (alistSet ps pn s)
                rw [hq] at this
                exact this rfl
              rw [hps']
              simpa [alistDel_alistSet_absent horig] using ih ps
        | some o0 =>
          cases hq : step c (alistSet ps pn s) with
          | mk o ps' =>
            cases o with
            | some r => simp
            | none =>
              have hps' : ps' = alistSet ps pn s := by
                have := hstep c (alistSet ps pn s)
                rw [hq] at this
                exact this rfl
              rw [hps']
              simpa [alistSet_alistSet_restore horig] using ih ps

theorem tryCatchAllList_fail_preserves (remaining : List String) :
    ∀ (cs : List (String × RNode)) (ps : Params),
      (tryCatchAllList remaining cs ps).1 = none
      → (tryCatchAllList remaining cs ps).2 = ps := by
  intro cs
  induction cs with
  | nil => intro ps _; rfl
  | cons e t ih =>
    intro ps
    cases e with
    | mk k c =>
      simp only [tryCatchAllList]
      cases hk : c.data.kind <;> cases hp : c.data.paramName <;>
        first
        | exact ih ps
        | skip
      rename_i pn
      simp only
      by_cases hpn : pn = ""
      · rw [if_pos hpn]; exact ih ps
      · rw [if_neg hpn]
        intro h
        simp at h

theorem matchNode_fail_preserves :
    ∀ (segs : List String) (n : RNode) (ps : Params),
      (matchNode segs n ps).1 = none → (matchNode segs n ps).2 = ps := by
  intro segs
  induction segs with
  | nil =>
    intro n ps
    simp only [matchNode]
    split
    · simp
    · simp
  | cons s rest ih =>
    intro n ps
    have hstep : ∀ c p, (matchNode rest c p).1 = none → (matchNode rest c p).2 = p :=
      fun c p => ih c p
    simp only [matchNode]
    split
    · intro h; simp at h
    · rename_i ps1 heq1
      split
      · intro h; simp at h
      · rename_i ps2 heq2
        intro h3
        have hps1 : ps1 = ps := by
          have := tryStaticList_fail_preserves _ hstep s n.children ps
          rw [heq1] at this
          exact this rfl
        have hps2 : ps2 = ps1 := by
          have := tryDynamicList_fail_preserves _ hstep s n.children ps1
          rw [heq2] at this
          exact this rfl
        rw [tryCatchAllList_fail_preserves (s :: rest) n.children ps2 h3, hps2, hps1]

/-- C7: during depth-first matching, a dynamic child whose subtree fails to
match leaves the shared params mapping exactly as it was: processing the
failed child and then its siblings is the same as processing the siblings
directly with the original params — the binding is restored to its exact
previous value (the key is deleted when it was previously absent). -/
theorem claim7_backtrack_restore (k : String) (c : RNode)
    (siblings : List (String × RNode)) (s : String) (rest : List String)
    (ps : Params) (pn : String)
    (hkind : c.data.kind = .dynamic) (hpn : c.data.paramName = some pn)
    (hne : pn ≠ "")
    (hfail : (matchNode rest c (alistSet ps pn s)).1 = none) :
    tryDynamicList (fun c' ps' => matchNode rest c' ps') s ((k, c) :: siblings) ps
      = tryDynamicList (fun c' ps' => matchNode rest c' ps') s siblings ps := by
  have hpair : matchNode rest c (alistSet ps pn s) = (none, alistSet ps pn s) := by
    rw [Prod.ext_iff]
    exact ⟨hfail, matchNode_fail_preserves rest c (alistSet ps pn s) hfail⟩
  simp only [tryDynamicList, hkind, hpn]
  rw [if_neg hne]
  cases horig : alistGet ps pn with
  | none =>
    rw [hpair]
    simp only
    rw [alistDel_alistSet_absent horig]
  | some o =>
    rw [hpair]
    simp only
    rw [alistSet_alistSet_restore horig]

theorem claim7_witness :
    ((RNode.mk (createNodeData ":x" .dynamic (some "x"))
        [("b", RNode.mk { createNodeData "b" .static none with routeHandler := some 1 } [])]).data.kind
      = .dynamic)
    ∧ (matchNode ["c"]
        (RNode.mk (createNodeData ":x" .dynamic (some "x"))
          [("b", RNode.mk { createNodeData "b" .static none with routeHandler := some 1 } [])])
        (alistSet [] "x" "v")).1 = none
    ∧ tryDynamicList (fun c' ps' => matchNode ["c"] c' ps') "v"
        [(":x", RNode.mk (createNodeData ":x" .dynamic (some "x"))
          [("b", RNode.mk { createNodeData "b" .static none with routeHandler := some 1 } [])])] []
      = tryDynamicList (fun c' ps' => matchNode ["c"] c' ps') "v" [] [] := by
  refine ⟨rfl, rfl, ?_⟩
  exact claim7_backtrack_restore ":x"
    (RNode.mk (createNodeData ":x" .dynamic (some "x"))
      [("b", RNode.mk { createNodeData "b" .static none with routeHandler := some 1 } [])])
    [] "v" ["c"] [] "x" rfl rfl (by decide) rfl

theorem tryStaticList_success_prop (step : RNode → Params → MRes)
    (P : RNode × Params → Prop)
    (hstep : ∀ c p r, (step c p).1 = some r → P r) (s : String) :
    ∀ (cs : List (String × RNode)) (ps : Params) (r : RNode × Params),
      (tryStaticList step s cs ps).1 = some r → P r := by
  intro cs
  induction cs with
  | nil => intro ps r h; simp [tryStaticList] at h
  | cons e t ih =>
    intro ps r
    cases e with
    | mk k c =>
      simp only [tryStaticList]
      split
      · cases hq : step c ps with
        | mk o ps1 =>
          cases o with
          | some r0 =>
            intro h
            have hr : r0 = r := by simpa using h
            subst hr
            exact hstep c ps r0 (by rw [hq])
          | none =>
            intro h
            exact ih ps1 r (by simpa using h)
      · exact ih ps r
  
theorem tryDynamicList_success_prop (step : RNode → Params → MRes)
    (P : RNode × Params → Prop)
    (hstep : ∀ c p r, (step c p).1 = some r → P r) (s : String) :
    ∀ (cs : List (String × RNode)) (ps : Params) (r : RNode × Params),
      (tryDynamicList step s cs ps).1 = some r → P r := by
  intro cs
  induction cs with
  | nil => intro ps r h; simp [tryDynamicList] at h
  | cons e t ih =>
    intro ps r
    cases e with
    | mk k c =>
      simp only [tryDynamicList]
      cases hk : c.data.kind <;> cases hp : c.data.paramName <;>
        first
        | exact ih ps r
        | skip
      rename_i pn
      simp only
      by_cases hpn : pn = ""
      · rw [if_pos hpn]; exact ih ps r
      · rw [if_neg hpn]
        cases horig : alistGet ps pn with
        | none =>
          cases hq : step c (alistSet ps pn s) with
          | mk o ps1 =>
            cases o with
            | some r0 =>
              intro h
              have hr : r0 = r := by simpa using h
              subst hr
              exact hstep c (alistSet ps pn s) r0 (by rw [hq])
            | none =>
              intro h
              exact ih (alistDel ps1 pn) r (by simpa using h)
        | some o0 =>
          cases hq : step c (alistSet ps pn s) with
          | mk o ps1 =>
            cases o with
            | some r0 =>
              intro h
              have hr : r0 = r := by simpa using h
              subst hr
              exact hstep c (alistSet ps pn s) r0 (by rw [hq])
            | none =>
              intro h
              exact ih (alistSet ps1 pn o0) r (by simpa using h)

theorem tryCatchAllList_success_kind (remaining : List String) :
    ∀ (cs : List (String × RNode)) (ps : Params) (r : RNode × Params),
      (tryCatchAllList remaining cs ps).1 = some r → r.1.data.kind = .catchAll := by
  intro cs
  induction cs with
  | nil => intro ps r h; simp [tryCatchAllList] at h
  | cons e t ih =>
    intro ps r
    cases e with
    | mk k c =>
      simp only [tryCatchAllList]
      cases hk : c.data.kind <;> cases hp : c.data.paramName <;>
        first
        | exact ih ps r
        | skip
      rename_i pn
      simp only
      by_cases hpn : pn = ""
      · rw [if_pos hpn]; exact ih ps r
      · rw [if_neg hpn]
        intro h
        have hr : (c, alistSet ps pn (String.intercalate "/" remaining)) = r := by
          simpa using h
        rw [← hr]
        exact hk

theorem matchNode_success_shape :
    ∀ (segs : List String) (n : RNode) (ps : Params) (r : RNode × Params),
      (matchNode segs n ps).1 = some r
      → r.1.data.routeHandler.isSome = true ∨ r.1.data.kind = .catchAll := by
  intro segs
  induction segs with
  | nil =>
    intro n ps r
    simp only [matchNode]
    split
    · rename_i hh
      intro h
      have hr : (n, ps) = r := by simpa using h
      left
      rw [← hr]
      exact hh
    · intro h; simp at h
  | cons s rest ih =>
    intro n ps r
    have hstep : ∀ c p r0, ((fun c ps1 => matchNode rest c ps1) c p).1 = some r0
        → r0.1.data.routeHandler.isSome = true ∨ r0.1.data.kind = .catchAll :=
      fun c p r0 h => ih c p r0 h
    simp only [matchNode]
    split
    · rename_i r0 ps1 heq1
      intro h
      have hr : r0 = r := by simpa using h
      subst hr
      exact tryStaticList_success_prop _ _ hstep s n.children ps r0 (by rw [heq1])
    · rename_i ps1 heq1
      split
      · rename_i r0 ps2 heq2
        intro h
        have hr : r0 = r := by simpa using h
        subst hr
        exact tryDynamicList_success_prop _ _ hstep s n.children ps1 r0 (by rw [heq2])
      · rename_i ps2 heq2
        intro h3
        right
        exact tryCatchAllList_success_kind (s :: rest) n.children ps2 r h3

/-- C3 counterexample: registering only a *layout* at `/files/*rest` leaves
the catch-all node without a `routeHandler`, yet `match` on `/files/a` still
returns a non-null result (whose node has no route handler), because the
catch-all branch of `matchNode` performs no `routeHandler` check. -/
theorem claim3_counterexample :
    (matchPath catchAllLayoutTree "/files/a").map (fun r => r.1.data.routeHandler)
      = some none := rfl

/-- C3 (amended): a non-null result of the pure match computation either
ends at a node with a `routeHandler` (exact consumption of all segments) or
terminates at a catch-all node — which the code returns regardless of
whether that node has a `routeHandler` (`render` later turns the
handler-less case into a 500). -/
theorem claim3_amended (t : RNode) (pathname : String) (r : RNode × Params)
    (h : matchPath t pathname = some r) :
    r.1.data.routeHandler.isSome = true ∨ r.1.data.kind = .catchAll :=
  matchNode_success_shape (splitPath pathname) t [] r h

theorem claim3_witness :
    matchPath catchAllLayoutTree "/files/a"
      = some (RNode.mk
          { segment := "*rest", kind := .catchAll, paramName := some "rest",
            middleware := [], isLayout := true, isGroup := false,
            routeHandler := none, layoutHandler := some 7, priority := 0 } [],
          [("rest", "a")])
    ∧ ((RNode.mk
          { segment := "*rest", kind := .catchAll, paramName := some "rest",
            middleware := [], isLayout := true, isGroup := false,
            routeHandler := none, layoutHandler := some 7, priority := 0 } [],
          ([("rest", "a")] : Params)).1.data.routeHandler.isSome = true
        ∨ (RNode.mk
          { segment := "*rest", kind := .catchAll, paramName := some "rest",
            middleware := [], isLayout := true, isGroup := false,
            routeHandler := none, layoutHandler := some 7, priority := 0 } [],
          ([("rest", "a")] : Params)).1.data.kind = .catchAll) := by
  refine ⟨rfl, ?_⟩
  exact claim3_amended catchAllLayoutTree "/files/a" _ rfl

theorem alistGet_append_of_ne {κ α : Type} [DecidableEq κ]
    (l : List (κ × α)) (r : κ) (v : α) {q : κ} (hq : q ≠ r) :
    alistGet (l ++ [(r, v)]) q = alistGet l q := by
  induction l with
  | nil =>
    simp only [List.nil_append, alistGet]
    rw [if_neg (fun h => hq h.symm)]
  | cons e t ih =>
    cases e with
    | mk k1 v1 =>
      simp only [List.cons_append, alistGet]
      by_cases he : k1 = q
      · rw [if_pos he, if_pos he]
      · rw [if_neg he, if_neg he]
        exact ih

theorem alistGet_append_last {κ α : Type} [DecidableEq κ]
    {l : List (κ × α)} {r : κ} (v : α) (h : alistGet l r = none) :
    alistGet (l ++ [(r, v)]) r = some v := by
  induction l with
  | nil => simp [alistGet]
  | cons e t ih =>
    rw [alistGet] at h
    cases e with
    | mk k1 v1 =>
      by_cases he : k1 = r
      · rw [if_pos he] at h; cases h
      · rw [if_neg he] at h
        simp only [List.cons_append, alistGet]
        rw [if_neg he]
        exact ih h

theorem alistGet_map_update {κ α : Type} [DecidableEq κ]
    (l : List (κ × α)) (r : κ) (f : α → α) {q : κ} (hq : q ≠ r) :
    alistGet (l.map (fun e => if e.1 = r then (e.1, f e.2) else e)) q
      = alistGet l q := by
  induction l with
  | nil => rfl
  | cons e t ih =>
    cases e with
    | mk k1 v1 =>
      simp only [List.map_cons]
      by_cases hk : k1 = r
      · rw [if_pos hk]
        have hqk : ¬ k1 = q := fun h => hq (h ▸ hk ▸ rfl)
        simp only [alistGet]
        rw [if_neg hqk, if_neg hqk]
        exact ih
      · rw [if_neg hk]
        by_cases hkq : k1 = q
        · simp only [alistGet]
          rw [if_pos hkq, if_pos hkq]
        · simp only [alistGet]
          rw [if_neg hkq, if_neg hkq]
          exact ih

/-- C4 counterexample: with the single route `/users/:id`, two successive
calls of the cached `match` for `/users/5` return the *same* params object
(reference 0); mutating it through the first result is visible in the second
call's result, so the cached result is not an independent defensive copy. -/
theorem claim4_counterexample :
    (matchS usersTree initSt "/users/5").1.map (fun q => q.2) = some 0
    ∧ heapGet (matchS usersTree initSt "/users/5").2 0 = some [("id", "5")]
    ∧ (matchS usersTree
        (mutateResultParam (matchS usersTree initSt "/users/5").2 0 "id" "HACK")
        "/users/5").1.map (fun q => q.2) = some 0
    ∧ heapGet (matchS usersTree
        (mutateResultParam (matchS usersTree initSt "/users/5").2 0 "id" "HACK")
        "/users/5").2 0 = some [("id", "HACK")]
    ∧ ([("id", "HACK")] : Params) ≠ [("id", "5")] := by
  exact ⟨rfl, rfl, rfl, rfl, by decide⟩

/-- C4 (amended): on a cache miss, `match` hands out a freshly allocated
copy of the working params: the returned reference aliases no previously
returned object, it holds exactly the params value computed by the match,
allocating it leaves every existing object unchanged, and mutating it
afterwards leaves every other object unchanged. A repeated call served from
the match cache, however, returns the same object (see the counterexample),
so per-call independence holds only for results computed on a miss. -/
theorem claim4_amended (t : RNode) (st : RouterSt) (p : String)
    (n : RNode) (r : Nat) (st2 : RouterSt)
    (hwf : ∀ q ∈ st.heap.map (fun e => e.1), q < st.nextRef)
    (hmiss : alistGet st.cache p = none)
    (hcall : matchS t st p = (some (n, r), st2)) :
    heapGet st r = none
    ∧ (∃ ps, matchPath t p = some (n, ps) ∧ heapGet st2 r = some ps)
    ∧ (∀ q, q ≠ r → heapGet st2 q = heapGet st q)
    ∧ (∀ k v q, q ≠ r → heapGet (mutateResultParam st2 r k v) q = heapGet st2 q) := by
  rw [matchS, hmiss] at hcall
  cases hmp : matchPath t p with
  | none => rw [hmp] at hcall; cases hcall
  | some q0 =>
    cases q0 with
    | mk n0 ps =>
      rw [hmp] at hcall
      simp only [Prod.mk.injEq, Option.some.injEq] at hcall
      obtain ⟨⟨hn, hr⟩, hst⟩ := hcall
      subst hn
      subst hr
      subst hst
      have hnone : heapGet st st.nextRef = none := by
        cases hg : alistGet st.heap st.nextRef with
        | none => exact hg
        | some w =>
          have hmem := alistGet_mem_of_some hg
          have := hwf st.nextRef hmem
          omega
      refine ⟨hnone, ⟨ps, rfl, ?_⟩, ?_, ?_⟩
      · exact alistGet_append_last ps hnone
      · intro q hq
        exact alistGet_append_of_ne st.heap st.nextRef ps hq
      · intro k v q hq
        exact alistGet_map_update _ st.nextRef (fun e => alistSet e k v) hq

theorem claim4_witness :
    (∀ q ∈ initSt.heap.map (fun e => e.1), q < initSt.nextRef)
    ∧ alistGet initSt.cache "/users/5" = none
    ∧ heapGet initSt 0 = none
    ∧ (∃ ps, matchPath usersTree "/users/5" = some
        (RNode.mk
          { segment := ":id", kind := .dynamic, paramName := some "id",
            middleware := [], isLayout := false, isGroup := false,
            routeHandler := some 1, layoutHandler := none, priority := 0 } [], ps)
        ∧ heapGet (matchS usersTree initSt "/users/5").2 0 = some ps) := by
  have h := claim4_amended usersTree initSt "/users/5"
    (RNode.mk
      { segment := ":id", kind := .dynamic, paramName := some "id",
        middleware := [], isLayout := false, isGroup := false,
        routeHandler := some 1, layoutHandler := none, priority := 0 } [])
    0 (matchS usersTree initSt "/users/5").2
    (by intro q hq; simp [initSt] at hq) rfl rfl
  exact ⟨by intro q hq; simp [initSt] at hq, rfl, h.1, h.2.1⟩

theorem bumpPriority_zero (n : RNode) (hp : n.data.priority = 0) : bumpPriority n 0 = n := by
  cases n with
  | mk d cs =>
    cases d
    simp only [RNode.data] at hp
    simp_all [bumpPriority]

theorem insertSegs_fresh_chain (pre : List String) (seg : PSeg) (d : NodeData) (h : Nat) :
    insertSegs (pre.map staticSeg ++ [seg]) (.mk d []) 0 h defOpts
      = .ok (.mk d (chainChildren pre [(seg.segment, leafOf seg h)])) := by
  induction pre generalizing d with
  | nil =>
    simp [insertSegs, alistGet, sortChildren, stableInsertDesc, setHandlers,
      leafOf, chainChildren, createNodeData, bumpPriority, alistSet, defOpts, Except.map]
  | cons q qs ih =>
    simp only [List.map_cons, List.cons_append, insertSegs, alistGet, staticSeg,
      List.append_eq]
    rw [show bumpPriority (.mk (createNodeData q .static none) []) 0
        = .mk (createNodeData q .static none) [] from bumpPriority_zero _ rfl]
    rw [ih (createNodeData q .static none)]
    simp [chainChildren, alistSet, createNodeData, Except.map]

theorem insertSegs_second_chain (pre : List String) (seg1 seg2 : PSeg) (d : NodeData)
    (h1 h2 : Nat) (hne : seg2.segment ≠ seg1.segment) :
    insertSegs (pre.map staticSeg ++ [seg2])
      (.mk d (chainChildren pre [(seg1.segment, leafOf seg1 h1)])) 0 h2 defOpts
      = .ok (.mk d (chainChildren pre
          [(seg1.segment, leafOf seg1 h1), (seg2.segment, leafOf seg2 h2)])) := by
  induction pre generalizing d with
  | nil =>
    have hne' : ¬ seg1.segment = seg2.segment := fun hh => hne hh.symm
    have hbump : bumpPriority (.mk (createNodeData seg2.segment seg2.kind seg2.paramName) []) 0
        = .mk (createNodeData seg2.segment seg2.kind seg2.paramName) [] :=
      bumpPriority_zero _ rfl
    have hsort : sortChildren [(seg1.segment, leafOf seg1 h1),
        (seg2.segment, RNode.mk (createNodeData seg2.segment seg2.kind seg2.paramName) [])]
        = [(seg1.segment, leafOf seg1 h1),
           (seg2.segment, RNode.mk (createNodeData seg2.segment seg2.kind seg2.paramName) [])] := by
      simp [sortChildren, stableInsertDesc]
    simp [insertSegs, chainChildren, alistGet, hne', hbump, hsort, setHandlers,
      defOpts, alistSet, leafOf, Except.map]
  | cons q qs ih =>
    have hbump : bumpPriority
        (.mk (createNodeData q .static none) (chainChildren qs [(seg1.segment, leafOf seg1 h1)])) 0
        = .mk (createNodeData q .static none) (chainChildren qs [(seg1.segment, leafOf seg1 h1)]) :=
      bumpPriority_zero _ rfl
    simp [insertSegs, chainChildren, alistGet, staticSeg, hbump,
      ih (createNodeData q .static none), alistSet, Except.map]

theorem matchNode_chain (s0 : String) (bottom : List (String × RNode))
    (ps psOut : Params) (out : RNode × Params)
    (hbase : ∀ d1 : NodeData, matchNode [s0] (.mk d1 bottom) ps = (some out, psOut)) :
    ∀ (pre : List String) (d : NodeData),
      matchNode (pre ++ [s0]) (.mk d (chainChildren pre bottom)) ps
        = (some out, psOut) := by
  intro pre
  induction pre with
  | nil => intro d; exact hbase d
  | cons q qs ih =>
    intro d
    have hinner := ih (createNodeData q .static none)
    simp only [List.cons_append, matchNode, RNode.children_mk, chainChildren,
      List.append_eq]
    rw [show tryStaticList (fun c ps' => matchNode (qs ++ [s0]) c ps') q
        [(q, RNode.mk (createNodeData q .static none) (chainChildren qs bottom))] ps
        = (some out, psOut) by
      simp [tryStaticList, hinner]]

theorem matchNode_bottom_staticFirst (s x : String) (h1 h2 : Nat) (d1 : NodeData) :
    matchNode [s] (.mk d1 [(s, leafOf (staticSeg s) h1), (":" ++ x, leafOf (dynSeg x) h2)]) []
      = (some (leafOf (staticSeg s) h1, []), []) := by
  simp [matchNode, tryStaticList, staticSeg, dynSeg]

theorem matchNode_bottom_dynFirst (s x : String) (h1 h2 : Nat) (d1 : NodeData) :
    matchNode [s] (.mk d1 [(":" ++ x, leafOf (dynSeg x) h2), (s, leafOf (staticSeg s) h1)]) []
      = (some (leafOf (staticSeg s) h1, []), []) := by
  simp [matchNode, tryStaticList, staticSeg, dynSeg]

/-- C1: for any shared static prefix, a static route and a dynamic route
registered below it (in either order) never conflict: the request matching
the static path exactly resolves to the static node carrying the static
route's handler, with no parameter bound — never to the dynamic route —
because `matchNode` tries static children before dynamic ones at every
level, regardless of registration order. -/
theorem claim1_static_preferred (pre : List String) (s x : String) (h1 h2 : Nat)
    (staticFirst : Bool) (hs : s ≠ ":" ++ x) :
    (buildTwo staticFirst pre s x h1 h2).map (fun t =>
        (matchNode (pre ++ [s]) t []).1.map
          (fun r => (r.1.data.kind, r.1.data.routeHandler, r.2)))
      = .ok (some (.static, some h1, [])) := by
  have hxs : (dynSeg x).segment ≠ (staticSeg s).segment := fun hh => hs hh.symm
  have hsx : (staticSeg s).segment ≠ (dynSeg x).segment := hs
  cases staticFirst with
  | true =>
    have hb1 := insertSegs_fresh_chain pre (staticSeg s) (createNodeData "" .static none) h1
    have hb2 := insertSegs_second_chain pre (staticSeg s) (dynSeg x)
      (createNodeData "" .static none) h1 h2 hxs
    have hm := matchNode_chain s
      [((staticSeg s).segment, leafOf (staticSeg s) h1),
       ((dynSeg x).segment, leafOf (dynSeg x) h2)]
      [] [] (leafOf (staticSeg s) h1, [])
      (fun d1 => matchNode_bottom_staticFirst s x h1 h2 d1) pre
      (createNodeData "" .static none)
    simp only [buildTwo, emptyRoot, reduceIte, Bool.false_eq_true, if_false,
      hb1, Except.bind, hb2, Except.map]
    rw [hm]
    simp [staticSeg]
  | false =>
    have hb1 := insertSegs_fresh_chain pre (dynSeg x) (createNodeData "" .static none) h2
    have hb2 := insertSegs_second_chain pre (dynSeg x) (staticSeg s)
      (createNodeData "" .static none) h2 h1 hsx
    have hm := matchNode_chain s
      [((dynSeg x).segment, leafOf (dynSeg x) h2),
       ((staticSeg s).segment, leafOf (staticSeg s) h1)]
      [] [] (leafOf (staticSeg s) h1, [])
      (fun d1 => matchNode_bottom_dynFirst s x h1 h2 d1) pre
      (createNodeData "" .static none)
    simp only [buildTwo, emptyRoot, reduceIte, Bool.false_eq_true, if_false,
      hb1, Except.bind, hb2, Except.map]
    rw [hm]
    simp [staticSeg]

theorem claim1_witness :
    "profile" ≠ ":" ++ "id"
    ∧ (buildTwo false ["users"] "profile" "id" 11 22).map (fun t =>
        (matchNode (["users"] ++ ["profile"]) t []).1.map
          (fun r => (r.1.data.kind, r.1.data.routeHandler, r.2)))
      = .ok (some (.static, some 11, [])) := by
  refine ⟨by decide, ?_⟩
  exact claim1_static_preferred ["users"] "profile" "id" 11 22 false (by decide)

theorem except_map_error_iff {α β γ : Type} (f : α → β) (x : Except γ α) (e : γ) :
    Except.map f x = .error e ↔ x = .error e := by
  cases x <;> simp [Except.map]

theorem except_map_ok_iff {α β γ : Type} (f : α → β) (x : Except γ α) (y : β) :
    Except.map f x = .ok y ↔ ∃ a, x = .ok a ∧ y = f a := by
  cases x <;> simp [Except.map, eq_comm]

theorem alistGet_alistSet_self {κ α : Type} [DecidableEq κ]
    (l : List (κ × α)) (k : κ) (v : α) :
    alistGet (alistSet l k v) k = some v := by
  induction l with
  | nil => simp [alistSet, alistGet]
  | cons e t ih =>
    cases e with
    | mk k1 v1 =>
      by_cases hk : k1 = k
      · simp [alistSet, alistGet, hk]
      · simp [alistSet, alistGet, hk, ih]

theorem slotTaken_bump (c : RNode) (p : Int) (keys : List String) (role : Bool) :
    slotTaken (bumpPriority c p) keys role = slotTaken c keys role := by
  cases c with
  | mk d cs => cases keys <;> simp [slotTaken, findNode, bumpPriority]

theorem slotTaken_fresh (d : NodeData) (keys : List String) (role : Bool)
    (hr : d.routeHandler = none) (hl : d.layoutHandler = none) :
    slotTaken (.mk d []) keys role = false := by
  cases keys with
  | nil => cases role <;> simp [slotTaken, findNode, hr, hl]
  | cons k rest => simp [slotTaken, findNode, alistGet]

theorem insertSegs_dup_iff :
    ∀ (segs : List PSeg) (n : RNode) (p : Int) (h : Nat) (opts : AddOpts),
      insertSegs segs n p h opts = .error (dupOf opts.isLayout)
        ↔ slotTaken n (segKeys segs) opts.isLayout = true := by
  intro segs
  induction segs with
  | nil =>
    intro n p h opts
    cases n with
    | mk d cs =>
      cases hL : opts.isLayout with
      | true =>
        by_cases hs : d.layoutHandler.isSome
        · simp [insertSegs, setHandlers, slotTaken, findNode, segKeys, dupOf, hL, hs]
        · simp [insertSegs, setHandlers, slotTaken, findNode, segKeys, dupOf, hL, hs]
      | false =>
        by_cases hs : d.routeHandler.isSome
        · simp [insertSegs, setHandlers, slotTaken, findNode, segKeys, dupOf, hL, hs]
        · simp [insertSegs, setHandlers, slotTaken, findNode, segKeys, dupOf, hL, hs]
  | cons seg rest ih =>
    intro n p h opts
    cases n with
    | mk d cs =>
      simp only [insertSegs, segKeys, List.map_cons]
      cases hc : alistGet cs seg.segment with
      | some c =>
        rw [except_map_error_iff, ih (bumpPriority c p), slotTaken_bump]
        simp [slotTaken, findNode, hc, segKeys]
      | none =>
        rw [except_map_error_iff,
          ih (bumpPriority (.mk (createNodeData seg.segment seg.kind seg.paramName) []) p)]
        rw [slotTaken_bump, slotTaken_fresh _ _ _ rfl rfl]
        simp [slotTaken, findNode, hc, segKeys]

theorem insertSegs_error_shape :
    ∀ (segs : List PSeg) (n : RNode) (p : Int) (h : Nat) (opts : AddOpts) (e : RegErr),
      insertSegs segs n p h opts = .error e → e = dupOf opts.isLayout := by
  intro segs
  induction segs with
  | nil =>
    intro n p h opts e
    cases n with
    | mk d cs =>
      cases hL : opts.isLayout with
      | true =>
        by_cases hs : d.layoutHandler.isSome <;>
          simp [insertSegs, setHandlers, dupOf, hL, hs, eq_comm]
      | false =>
        by_cases hs : d.routeHandler.isSome <;>
          simp [insertSegs, setHandlers, dupOf, hL, hs, eq_comm]
  | cons seg rest ih =>
    intro n p h opts e
    cases n with
    | mk d cs =>
      simp only [insertSegs]
      cases hc : alistGet cs seg.segment with
      | some c =>
        intro he
        rw [except_map_error_iff] at he
        exact ih _ p h opts e he
      | none =>
        intro he
        rw [except_map_error_iff] at he
        exact ih _ p h opts e he

theorem insertSegs_slot_after :
    ∀ (segs : List PSeg) (n : RNode) (p : Int) (h : Nat) (opts : AddOpts) (t2 : RNode),
      insertSegs segs n p h opts = .ok t2
      → slotTaken t2 (segKeys segs) opts.isLayout = true
        ∧ slotTaken t2 (segKeys segs) (!opts.isLayout)
            = slotTaken n (segKeys segs) (!opts.isLayout) := by
  intro segs
  induction segs with
  | nil =>
    intro n p h opts t2
    cases n with
    | mk d cs =>
      cases hL : opts.isLayout with
      | true =>
        by_cases hs : d.layoutHandler.isSome
        · simp [insertSegs, setHandlers, hL, hs]
        · intro hok
          have ht2 : t2 = .mk { d with layoutHandler := some h,
                                        isGroup := opts.isGroup,
                                        isLayout := opts.isLayout,
                                        middleware := d.middleware ++ opts.middleware } cs := by
            simpa [insertSegs, setHandlers, hL, hs, eq_comm] using hok
          subst ht2
          simp [slotTaken, findNode, segKeys]
      | false =>
        by_cases hs : d.routeHandler.isSome
        · simp [insertSegs, setHandlers, hL, hs]
        · intro hok
          have ht2 : t2 = .mk { d with routeHandler := some h,
                                        isGroup := opts.isGroup,
                                        isLayout := opts.isLayout,
                                        middleware := d.middleware ++ opts.middleware } cs := by
            simpa [insertSegs, setHandlers, hL, hs, eq_comm] using hok
          subst ht2
          simp [slotTaken, findNode, segKeys]
  | cons seg rest ih =>
    intro n p h opts t2
    cases n with
    | mk d cs =>
      simp only [insertSegs, segKeys, List.map_cons]
      cases hc : alistGet cs seg.segment with
      | some c =>
        intro hok
        rw [except_map_ok_iff] at hok
        obtain ⟨c2, hc2, ht2⟩ := hok
        subst ht2
        have hrec := ih (bumpPriority c p) p h opts c2 hc2
        constructor
        · simp [slotTaken, findNode, alistGet_alistSet_self]
          have := hrec.1
          simpa [slotTaken] using this
        · have h1 : slotTaken c2 (segKeys rest) (!opts.isLayout)
              = slotTaken c (segKeys rest) (!opts.isLayout) := by
            rw [hrec.2, slotTaken_bump]
          simp [slotTaken, findNode, alistGet_alistSet_self, hc]
          simpa [slotTaken] using h1
      | none =>
        intro hok
        rw [except_map_ok_iff] at hok
        obtain ⟨c2, hc2, ht2⟩ := hok
        subst ht2
        have hrec := ih (bumpPriority (.mk (createNodeData seg.segment seg.kind seg.paramName) []) p)
          p h opts c2 hc2
        constructor
        · simp [slotTaken, findNode, alistGet_alistSet_self]
          have := hrec.1
          simpa [slotTaken] using this
        · have h1 : slotTaken c2 (segKeys rest) (!opts.isLayout) = false := by
            rw [hrec.2, slotTaken_bump, slotTaken_fresh _ _ _ rfl rfl]
          simp [slotTaken, findNode, alistGet_alistSet_self, hc]
          simpa [slotTaken] using h1

/-- C8: `addRoute`'s tree insertion fails with the duplicate-handler error
for the requested role exactly when the terminal node's handler slot for
that role is already occupied (first conjunct); hence registering the same
path as a route handler twice always fails with the duplicate-route error
(second conjunct), while registering it once as a route and once as a
layout succeeds, the two slots being independent (third conjunct). -/
theorem claim8_duplicate_handler :
    (∀ (segs : List PSeg) (n : RNode) (p : Int) (h : Nat) (opts : AddOpts),
       insertSegs segs n p h opts = .error (dupOf opts.isLayout)
         ↔ slotTaken n (segKeys segs) opts.isLayout = true)
    ∧ (∀ (segs : List PSeg) (h1 h2 : Nat),
       (insertSegs segs emptyRoot 0 h1 defOpts).bind
           (fun t => insertSegs segs t 0 h2 defOpts) = .error .duplicateRoute)
    ∧ (∀ (segs : List PSeg) (h1 h2 : Nat),
       ∃ t2, (insertSegs segs emptyRoot 0 h1 defOpts).bind
           (fun t => insertSegs segs t 0 h2 layoutOpts) = .ok t2) := by
  have hfirst : ∀ (segs : List PSeg) (h1 : Nat),
      ∃ t1, insertSegs segs emptyRoot 0 h1 defOpts = .ok t1 := by
    intro segs h1
    cases hq : insertSegs segs emptyRoot 0 h1 defOpts with
    | error e =>
      have he := insertSegs_error_shape segs emptyRoot 0 h1 defOpts e hq
      subst he
      have := (insertSegs_dup_iff segs emptyRoot 0 h1 defOpts).mp hq
      rw [show slotTaken emptyRoot (segKeys segs) defOpts.isLayout = false from
        slotTaken_fresh _ _ _ rfl rfl] at this
      cases this
    | ok t1 => exact ⟨t1, rfl⟩
  refine ⟨insertSegs_dup_iff, ?_, ?_⟩
  · intro segs h1 h2
    obtain ⟨t1, ht1⟩ := hfirst segs h1
    have hslot := insertSegs_slot_after segs emptyRoot 0 h1 defOpts t1 ht1
    rw [ht1]
    show insertSegs segs t1 0 h2 defOpts = .error .duplicateRoute
    have := (insertSegs_dup_iff segs t1 0 h2 defOpts).mpr hslot.1
    exact this
  · intro segs h1 h2
    obtain ⟨t1, ht1⟩ := hfirst segs h1
    have hslot := insertSegs_slot_after segs emptyRoot 0 h1 defOpts t1 ht1
    rw [ht1]
    show ∃ t2, insertSegs segs t1 0 h2 layoutOpts = .ok t2
    cases hq : insertSegs segs t1 0 h2 layoutOpts with
    | error e =>
      have he := insertSegs_error_shape segs t1 0 h2 layoutOpts e hq
      subst he
      have hdup := (insertSegs_dup_iff segs t1 0 h2 layoutOpts).mp hq
      have hother : slotTaken t1 (segKeys segs) true
          = slotTaken emptyRoot (segKeys segs) true := by
        simpa using hslot.2
      have hdup2 : slotTaken t1 (segKeys segs) true = true := hdup
      rw [hother] at hdup2
      rw [show slotTaken emptyRoot (segKeys segs) true = false from
        slotTaken_fresh _ _ _ rfl rfl] at hdup2
      cases hdup2
    | ok t2 => exact ⟨t2, rfl⟩

theorem claim8_witness :
    ((insertSegs [staticSeg "a"] emptyRoot 0 1 defOpts).bind
        (fun t => insertSegs [staticSeg "a"] t 0 2 defOpts) = .error .duplicateRoute)
    ∧ (∃ t2, (insertSegs [staticSeg "a"] emptyRoot 0 1 defOpts).bind
        (fun t => insertSegs [staticSeg "a"] t 0 2 layoutOpts) = .ok t2) :=
  ⟨claim8_duplicate_handler.2.1 [staticSeg "a"] 1 2,
   claim8_duplicate_handler.2.2 [staticSeg "a"] 1 2⟩

end Baremetal
